import Mathlib

/-!
Verification of the analytics core of the Finance repository.

This file gives a shallow embedding, in Lean 4, of the numeric analytics
functions of the backend (`apps/api/app/services/stock_service.py`,
`portfolio_service.py`, `screener_service.py`): guarded division, the ratio
dashboard composites (Altman Z, Piotroski F, quick ratio), the DCF valuation
engine (forward and reverse), the screener composite scoring, the FIFO
lot-matched realized-gain engine and the XIRR root finder.  Python floats are
modelled as exact rationals (`ℚ`); the one genuinely real-valued operation
(the fractional-exponent discounting inside XNPV) is modelled over `ℝ` with
`Real.rpow`.  `None` values are modelled with `Option`.
-/

attribute [local semireducible] Rat.mul Rat.add Rat.sub Rat.inv Rat.ofScientific

namespace Finance


/-- Embedding of `PortfolioService._safe_div` / `StockService._safe_div`:
`None` if either operand is missing or the denominator is zero, else the
exact quotient. -/

def safeDiv (numerator denominator : Option ℚ) : Option ℚ :=
  match numerator, denominator with
  | some a, some b => if b = 0 then none else some (a / b)
  | _, _ => none

/-- Embedding of `_normalize_rate`: values with `|x| > 2` are interpreted as percentages
and divided by 100. -/

def normalizeRate (value : Option ℚ) : Option ℚ :=
  match value with
  | none => none
  | some x => some (if |x| > 2 then x / 100 else x)

/-- Embedding of `_normalize_debt_to_equity`: values with `|x| > 10` are divided by 100. -/

def normalizeDebtToEquity (value : Option ℚ) : Option ℚ :=
  match value with
  | none => none
  | some x => some (if |x| > 10 then x / 100 else x)

/-- Python 3 `round` to the nearest integer, ties to even (banker's
rounding). -/

def pyRound (q : ℚ) : ℤ :=
  let n := ⌊q⌋
  let r := q - (n : ℚ)
  if r < 1 / 2 then n
  else if (1 : ℚ) / 2 < r then n + 1
  else if n % 2 = 0 then n else n + 1

/-- Python `round(x, 2)`. -/

def round2 (q : ℚ) : ℚ := (pyRound (q * 100) : ℚ) / 100

/-- Clamping `min(max(x, lo), hi)`, the idiom used throughout the scoring
code. -/

def clampQ (x lo hi : ℚ) : ℚ := min (max x lo) hi

/-- Embedding of `current_ratio = _safe_div(current_assets, current_liabilities)` from
`_build_ratio_dashboard`. -/

def currentRatio (current_assets current_liabilities : Option ℚ) : Option ℚ :=
  safeDiv current_assets current_liabilities

/-- Embedding of `quick_assets`: `current_assets - (inventory if inventory is not None
else 0)` when current assets are present, else `None`. -/

def quickAssets (current_assets inventory : Option ℚ) : Option ℚ :=
  match current_assets with
  | none => none
  | some ca => some (ca - inventory.getD 0)

/-- Embedding of `quick_ratio = _safe_div(quick_assets, current_liabilities)`. -/

def quickRatio (current_assets inventory current_liabilities : Option ℚ) : Option ℚ :=
  safeDiv (quickAssets current_assets inventory) current_liabilities

/-- The Altman sub-object of the ratio dashboard: five components, composite
score and zone string. -/

structure Altman where
  c1 : Option ℚ
  c2 : Option ℚ
  c3 : Option ℚ
  c4 : Option ℚ
  c5 : Option ℚ
  score : Option ℚ
  zone : String

/-- The Altman Z computation of `_build_ratio_dashboard`: components are
guarded quotients, the score needs all five components, and the zone is
derived from the score thresholds. -/

def altman (working_capital retained_earnings ebit market_cap revenue
    total_assets total_liabilities : Option ℚ) : Altman :=
  let c1 := safeDiv working_capital total_assets
  let c2 := safeDiv retained_earnings total_assets
  let c3 := safeDiv ebit total_assets
  let c4 := safeDiv market_cap total_liabilities
  let c5 := safeDiv revenue total_assets
  let score : Option ℚ :=
    match c1, c2, c3, c4, c5 with
    | some a, some b, some c, some d, some e =>
        some (1.2 * a + 1.4 * b + 3.3 * c + 0.6 * d + 1.0 * e)
    | _, _, _, _, _ => none
  let zone : String :=
    match score with
    | none => "Unknown"
    | some s => if s > 2.99 then "Safe" else if s ≥ 1.81 then "Grey" else "Distress"
  ⟨c1, c2, c3, c4, c5, score, zone⟩

/-- A unary Piotroski signal: evaluable only when the input is present. -/

def sig1 (f : ℚ → Bool) : Option ℚ → Option Bool
  | none => none
  | some x => some (f x)

/-- A binary Piotroski signal: evaluable only when both inputs are present. -/

def sig2 (f : ℚ → ℚ → Bool) : Option ℚ → Option ℚ → Option Bool
  | some x, some y => some (f x y)
  | _, _ => none

/-- The nine Piotroski signals of `_build_ratio_dashboard`, in source
order. -/

def piotroskiSignals (roa operating_cash_flow previous_roa net_income
    current_debt_ratio previous_debt_ratio current_r previous_current_r
    shares_outstanding previous_shares gross_margin previous_gross_margin
    asset_turnover previous_asset_turnover : Option ℚ) : List (Option Bool) :=
  [sig1 (fun x => decide (x > 0)) roa,
   sig1 (fun x => decide (x > 0)) operating_cash_flow,
   sig2 (fun x y => decide (x > y)) roa previous_roa,
   sig2 (fun x y => decide (x > y)) operating_cash_flow net_income,
   sig2 (fun x y => decide (x < y)) current_debt_ratio previous_debt_ratio,
   sig2 (fun x y => decide (x > y)) current_r previous_current_r,
   sig2 (fun x y => decide (x ≤ y)) shares_outstanding previous_shares,
   sig2 (fun x y => decide (x > y)) gross_margin previous_gross_margin,
   sig2 (fun x y => decide (x > y)) asset_turnover previous_asset_turnover]

/-- Embedding of `piotroski_score`: count of `True` signals, or `None` when no signal
could be evaluated. -/

def piotroskiScore (signals : List (Option Bool)) : Option ℕ :=
  let available := (signals.filter Option.isSome).length
  if available = 0 then none
  else some ((signals.filter (fun s => s = some true)).length)

/-- Embedding of `piotroski_label` from the score thresholds. -/

def piotroskiLabel (score : Option ℕ) : String :=
  match score with
  | none => "Unknown"
  | some s => if s ≥ 7 then "Strong" else if s ≥ 4 then "Average" else "Weak"

/-- The result dictionary of `_project_dcf`.  `projection` rows are
`(year_index, cash_flow, present_value)`. -/

structure DcfResult where
  projection : List (ℕ × ℚ × ℚ)
  present_value_of_cash_flows : Option ℚ
  terminal_value : Option ℚ
  present_value_terminal : Option ℚ
  enterprise_value : Option ℚ
  equity_value : Option ℚ
  intrinsic_value_per_share : Option ℚ
  upside_percent : Option ℚ

/-- The all-`None` dictionary returned by the guard branches of
`_project_dcf`. -/

def dcfNullResult : DcfResult :=
  ⟨[], none, none, none, none, none, none, none⟩

/-- The projection loop of `_project_dcf`: for `year_index = 1..N`,
cash flow `base·(1+g)^i` discounted by `(1+r)^i`. -/

def dcfProjection (base growth discount : ℚ) (years : ℕ) : List (ℕ × ℚ × ℚ) :=
  (List.range years).map (fun i =>
    let y := i + 1
    let projected := base * (1 + growth) ^ y
    let pv := projected / (1 + discount) ^ y
    (y, projected, pv))

/-- Embedding of `StockService._project_dcf`, translated field by field. -/

def projectDcf (base_cash_flow : Option ℚ) (growth_rate discount_rate
    terminal_growth_rate : ℚ) (projection_years : ℕ)
    (shares_outstanding net_debt market_price : Option ℚ) (mode : String) :
    DcfResult :=
  match base_cash_flow, shares_outstanding with
  | some base, some shares =>
    if shares ≤ 0 then dcfNullResult
    else if discount_rate ≤ -0.9 ∨ terminal_growth_rate ≤ -0.9 ∨
        discount_rate ≤ terminal_growth_rate + 0.002 ∨ base ≤ 0 then dcfNullResult
    else
      let projection := dcfProjection base growth_rate discount_rate projection_years
      let pv_cash_flows := projection.foldl (fun acc row => acc + row.2.2) 0
      let last_cash_flow := projection.foldl (fun _ row => row.2.1) base
      let terminal_cash_flow := last_cash_flow * (1 + terminal_growth_rate)
      let terminal_value := terminal_cash_flow / (discount_rate - terminal_growth_rate)
      let present_value_terminal := terminal_value / (1 + discount_rate) ^ projection_years
      let ev_eq : ℚ × ℚ :=
        if mode = "fcff" then
          (pv_cash_flows + present_value_terminal,
           pv_cash_flows + present_value_terminal - net_debt.getD 0)
        else
          (pv_cash_flows + present_value_terminal + net_debt.getD 0,
           pv_cash_flows + present_value_terminal)
      let intrinsic := safeDiv (some ev_eq.2) (some shares)
      let upside : Option ℚ :=
        match intrinsic, market_price with
        | some i, some mp => if mp > 0 then some ((i - mp) / mp * 100) else none
        | _, _ => none
      ⟨projection, some pv_cash_flows, some terminal_value, some present_value_terminal,
       some ev_eq.1, some ev_eq.2, intrinsic, upside⟩
  | _, _ => dcfNullResult

/-- The all-`None` shape named by the spec: empty projection and `None` in
every reported aggregate field. -/

def dcfAllNull (r : DcfResult) : Prop :=
  r.projection = [] ∧ r.present_value_of_cash_flows = none ∧
  r.terminal_value = none ∧ r.enterprise_value = none ∧
  r.equity_value = none ∧ r.intrinsic_value_per_share = none ∧
  r.upside_percent = none

/-- The guard disjunction of `_project_dcf` as stated by the spec. -/

def dcfGuard (base_cash_flow : Option ℚ) (discount_rate terminal_growth_rate : ℚ)
    (shares_outstanding : Option ℚ) : Prop :=
  base_cash_flow = none ∨ (∃ b, base_cash_flow = some b ∧ b ≤ 0) ∨
  shares_outstanding = none ∨ (∃ s, shares_outstanding = some s ∧ s ≤ 0) ∨
  discount_rate ≤ -0.9 ∨ terminal_growth_rate ≤ -0.9 ∨
  discount_rate ≤ terminal_growth_rate + 0.002

/-- Closed form of the accumulated present value of the projected cash
flows. -/

def pvQ (b g d : ℚ) : ℕ → ℚ
  | 0 => 0
  | n + 1 => pvQ b g d n + b * (1 + g) ^ (n + 1) / (1 + d) ^ (n + 1)

/-- Closed form of `last_cash_flow` after the projection loop. -/

def lastCfQ (b g : ℚ) (n : ℕ) : ℚ :=
  if n = 0 then b else b * (1 + g) ^ n

/-- Closed form of the discounted terminal value. -/

def pvTermQ (b g d tg : ℚ) (n : ℕ) : ℚ :=
  lastCfQ b g n * (1 + tg) / (d - tg) / (1 + d) ^ n

/-- The bisection loop of `_reverse_dcf_growth` (70 iterations; aborts with
`None` when the projected intrinsic value is missing). -/

def revDcfLoop (base_cash_flow : Option ℚ) (d tg : ℚ) (years : ℕ)
    (shares nd : Option ℚ) (mp : ℚ) (mode : String) : ℕ → ℚ → ℚ → Option ℚ
  | 0, low, high => some ((low + high) / 2)
  | fuel + 1, low, high =>
    let mid := (low + high) / 2
    match (projectDcf base_cash_flow mid d tg years shares nd (some mp)
        mode).intrinsic_value_per_share with
    | none => none
    | some price =>
      if price > mp then
        revDcfLoop base_cash_flow d tg years shares nd mp mode fuel low mid
      else
        revDcfLoop base_cash_flow d tg years shares nd mp mode fuel mid high

/-- Embedding of `StockService._reverse_dcf_growth`: validity guards, then 70 bisection
iterations on the growth rate over `[-0.30, 0.45]`. -/

def reverseDcfGrowth (base_cash_flow : Option ℚ) (discount_rate
    terminal_growth_rate : ℚ) (projection_years : ℕ)
    (shares_outstanding net_debt market_price : Option ℚ) (mode : String) :
    Option ℚ :=
  match base_cash_flow, shares_outstanding, market_price with
  | some b, some s, some m =>
    if b ≤ 0 ∨ s ≤ 0 ∨ m ≤ 0 then none
    else revDcfLoop (some b) discount_rate terminal_growth_rate projection_years
      (some s) net_debt m mode 70 (-0.30) 0.45
  | _, _, _ => none

/-- The fields of a screener row consumed by `_score_row`.  Numeric fields
are optional (missing data is `None`); boolean flags default to false. -/

structure ScreenerRow where
  roe : Option ℚ
  pe : Option ℚ
  debt_to_equity : Option ℚ
  revenue_growth : Option ℚ
  revenue_cagr_3y : Option ℚ
  eps_cagr_5y : Option ℚ
  roic : Option ℚ
  piotroski_score : Option ℚ
  rsi_14 : Option ℚ
  momentum_6m_percent : Option ℚ
  annualized_volatility_percent : Option ℚ
  beta : Option ℚ
  max_drawdown_5y_percent : Option ℚ
  breakout : Bool
  volume_spike : Bool
  high_momentum : Bool
  low_volatility : Bool
  insider_buying : Bool

/-- The quality sub-score of `_score_row` (including the insider-buying
advanced-flag bonus, which the source adds to `quality`). -/

def qualityScore (row : ScreenerRow) : ℚ :=
  (match normalizeRate row.roe with
   | some roe => clampQ (roe * 120) (-8) 14
   | none => 0) +
  (match normalizeRate row.roic with
   | some roic => clampQ (roic * 120) (-6) 12
   | none => 0) +
  (match normalizeDebtToEquity row.debt_to_equity with
   | some debt => clampQ ((2.0 - debt) * 4.0) (-8) 8
   | none => 0) +
  (match row.piotroski_score with
   | some p => clampQ ((p - 4.5) * 1.2) (-5) 6
   | none => 0) +
  (if row.insider_buying then 3 else 0)

/-- The growth sub-score of `_score_row`. -/

def growthScore (row : ScreenerRow) : ℚ :=
  (match normalizeRate row.revenue_growth with
   | some rg => clampQ (rg * 100) (-10) 12
   | none => 0) +
  (match normalizeRate row.revenue_cagr_3y with
   | some c => clampQ (c * 110) (-8) 12
   | none => 0) +
  (match normalizeRate row.eps_cagr_5y with
   | some c => clampQ (c * 120) (-8) 12
   | none => 0) +
  (match row.pe with
   | some pe => if pe > 0 then clampQ ((30 - pe) * 0.25) (-4) 5 else 0
   | none => 0)

/-- The risk sub-score of `_score_row` (including the low-volatility
advanced-flag bonus). -/

def riskScore (row : ScreenerRow) : ℚ :=
  (match row.annualized_volatility_percent with
   | some vol => clampQ ((35 - vol) * 0.25) (-6) 8
   | none => 0) +
  (match row.beta with
   | some beta => clampQ ((1.3 - beta) * 5.0) (-6) 6
   | none => 0) +
  (match row.max_drawdown_5y_percent with
   | some dd => clampQ ((55 - dd) * 0.16) (-5) 7
   | none => 0) +
  (if row.low_volatility then 2 else 0)

/-- The momentum sub-score of `_score_row` (including the breakout, volume
spike and high-momentum bonuses). -/

def momentumScore (row : ScreenerRow) : ℚ :=
  (match row.rsi_14 with
   | some rsi =>
     if 45 ≤ rsi ∧ rsi ≤ 65 then 6
     else if 35 ≤ rsi ∧ rsi ≤ 75 then 3
     else -2
   | none => 0) +
  (match row.momentum_6m_percent with
   | some m => clampQ (m * 0.22) (-6) 10
   | none => 0) +
  (if row.breakout then 5 else 0) +
  (if row.volume_spike then 4 else 0) +
  (if row.high_momentum then 3 else 0)

/-- Embedding of `total_score = int(max(0, min(100, round(total))))` with
`total = 28.0 + quality + growth + risk + momentum`. -/

def totalScore (row : ScreenerRow) : ℤ :=
  max 0 (min 100 (pyRound
    (28.0 + qualityScore row + growthScore row + riskScore row + momentumScore row)))

/-- The per-group breakdown returned next to the score
(`int(max(0, round(...)))` per sub-score). -/

def scoreBreakdown (row : ScreenerRow) : ℤ × ℤ × ℤ × ℤ :=
  (max 0 (pyRound (qualityScore row)), max 0 (pyRound (growthScore row)),
   max 0 (pyRound (riskScore row)), max 0 (pyRound (momentumScore row)))

/-- A portfolio transaction ledger row.  Dates are modelled as day numbers
(`ℤ`); `created_at` is the raw string used as the sort tie-breaker. -/

structure Tx where
  symbol : String
  side : String
  quantity : Option ℚ
  price : Option ℚ
  fee : Option ℚ
  trade_date : Option ℤ
  created_at : String

/-- An open buy lot: `{qty, unit_cost, date}` (unit cost includes fees). -/

structure Lot where
  qty : ℚ
  unit_cost : ℚ
  date : ℤ

/-- The output dictionary of `_tax_gain_calculation`. -/

structure TaxResult where
  realized_short_term : ℚ
  realized_long_term : ℚ
  unrealized_short_term : ℚ
  unrealized_long_term : ℚ
  estimated_tax_payable : ℚ

/-- ASCII uppercase of one character (the inputs handled by the service are
ASCII tickers). -/

def charUp (c : Char) : Char :=
  if 'a' ≤ c ∧ c ≤ 'z' then Char.ofNat (c.toNat - 32) else c

/-- ASCII lowercase of one character. -/

def charLow (c : Char) : Char :=
  if 'A' ≤ c ∧ c ≤ 'Z' then Char.ofNat (c.toNat + 32) else c

/-- Python `str.upper()` on the ASCII range. -/

def strUpper (s : String) : String := ⟨s.data.map charUp⟩

/-- Python `str.lower()` on the ASCII range. -/

def strLower (s : String) : String := ⟨s.data.map charLow⟩

/-- Python lexicographic `≤` on strings, by code point. -/

def charsLe : List Char → List Char → Bool
  | [], _ => true
  | _ :: _, [] => false
  | x :: xs, y :: ys =>
    if x.toNat < y.toNat then true
    else if y.toNat < x.toNat then false
    else charsLe xs ys

/-- Strict `<` on the `date.min`-defaulted trade-date sort key: a missing
date (`date.min`) sorts before every present date. -/

def dateKeyLt : Option ℤ → Option ℤ → Bool
  | none, none => false
  | none, some _ => true
  | some _, none => false
  | some x, some y => decide (x < y)

/-- The ledger sort key order of `_tax_gain_calculation`:
ascending `(trade_date, created_at)`, missing dates first. -/

def txLe (a b : Tx) : Bool :=
  dateKeyLt a.trade_date b.trade_date ||
    (a.trade_date == b.trade_date && charsLe a.created_at.data b.created_at.data)

/-- Python `sorted(transactions, key=(trade_date or date.min, created_at))`;
insertion sort is stable, like Python's sort. -/

def sortTransactions (l : List Tx) : List Tx :=
  List.insertionSort (fun a b => txLe a b = true) l

/-- Association-list lookup for the `lots_by_symbol` dictionary. -/

def lotsLookup : List (String × List Lot) → String → Option (List Lot)
  | [], _ => none
  | (k', v) :: rest, k => if k' = k then some v else lotsLookup rest k

/-- Association-list update preserving `defaultdict` insertion order: update
an existing key in place, append a new key at the end. -/

def lotsSet : List (String × List Lot) → String → List Lot →
    List (String × List Lot)
  | [], k, v => [(k, v)]
  | (k', v') :: rest, k, v =>
    if k' = k then (k, v) :: rest else (k', v') :: lotsSet rest k v

/-- The FIFO `while remaining > 1e-9 and lots:` loop of the sell branch.
Returns `(short_gain, long_gain, remaining, lots)`.  When the head lot is
consumed only in part, `matched = remaining`, so the loop condition fails
on re-entry and the loop exits with the updated head kept. -/

def consumeLots (unit_proceeds : ℚ) (sell_date : ℤ) :
    ℚ → List Lot → ℚ × ℚ × ℚ × List Lot
  | remaining, [] => (0, 0, remaining, [])
  | remaining, lot :: rest =>
    if remaining ≤ 1e-9 then (0, 0, remaining, lot :: rest)
    else
      let matched := min remaining lot.qty
      let gain := matched * (unit_proceeds - lot.unit_cost)
      let holding_days := sell_date - lot.date
      let sAdd : ℚ := if holding_days ≥ 365 then 0 else gain
      let lAdd : ℚ := if holding_days ≥ 365 then gain else 0
      let newQty := lot.qty - matched
      let remaining' := remaining - matched
      if newQty ≤ 1e-9 then
        let r := consumeLots unit_proceeds sell_date remaining' rest
        (sAdd + r.1, lAdd + r.2.1, r.2.2.1, r.2.2.2)
      else
        (sAdd, lAdd, remaining', ⟨newQty, lot.unit_cost, lot.date⟩ :: rest)

/-- The running state of the transaction loop. -/

structure TaxState where
  lots : List (String × List Lot)
  realized_short : ℚ
  realized_long : ℚ

/-- One iteration of the transaction loop of `_tax_gain_calculation`. -/

def taxStep (today : ℤ) (state : TaxState) (tx : Tx) : TaxState :=
  let symbol := strUpper tx.symbol
  let quantity := tx.quantity.getD 0
  let price := tx.price.getD 0
  let fee := tx.fee.getD 0
  let trade_date := tx.trade_date.getD today
  if symbol = "" ∨ quantity ≤ 0 ∨ price ≤ 0 then state
  else if strLower tx.side = "buy" then
    let unit_cost := (quantity * price + fee) / quantity
    let lots := (lotsLookup state.lots symbol).getD []
    { state with
      lots := lotsSet state.lots symbol (lots ++ [⟨quantity, unit_cost, trade_date⟩]) }
  else if strLower tx.side ≠ "sell" then state
  else
    let unit_proceeds := (quantity * price - fee) / quantity
    let lots := (lotsLookup state.lots symbol).getD []
    let r := consumeLots unit_proceeds trade_date quantity lots
    { lots := lotsSet state.lots symbol r.2.2.2,
      realized_short := state.realized_short + r.1 +
        (if r.2.2.1 > 1e-9 then r.2.2.1 * unit_proceeds else 0),
      realized_long := state.realized_long + r.2.1 }

/-- Embedding of `PortfolioService._tax_gain_calculation`: sort the ledger by
`(trade_date, created_at)`, fold the FIFO lot engine over it, then value the
remaining open lots against `holding_prices` as of `today` and apply the
flat 30%/15% tax estimate. -/

def taxGainCalculation (today : ℤ) (transactions : List Tx)
    (holding_prices : String → Option ℚ) : TaxResult :=
  let tx_rows := sortTransactions transactions
  let final := tx_rows.foldl (taxStep today) ⟨[], 0, 0⟩
  let unrealized := final.lots.foldl (fun acc entry =>
    match holding_prices entry.1 with
    | none => acc
    | some cp => entry.2.foldl (fun acc2 lot =>
        let gain := lot.qty * (cp - lot.unit_cost)
        if today - lot.date ≥ 365 then (acc2.1, acc2.2 + gain)
        else (acc2.1 + gain, acc2.2)) acc) ((0 : ℚ), (0 : ℚ))
  let estimated_tax := max 0 (final.realized_short * 0.3) +
    max 0 (final.realized_long * 0.15)
  ⟨round2 final.realized_short, round2 final.realized_long,
   round2 unrealized.1, round2 unrealized.2, round2 estimated_tax⟩

/-- The spec's example ledger, deliberately listed out of trade-date order:
sell 15@$150 on day 400, buy 10@$120 on day 40, buy 10@$100 (fee $0) on
day 1. -/

def exampleLedger : List Tx :=
  [⟨"AAPL", "sell", some 15, some 150, some 0, some 400, ""⟩,
   ⟨"AAPL", "buy", some 10, some 120, some 0, some 40, ""⟩,
   ⟨"AAPL", "buy", some 10, some 100, some 0, some 1, ""⟩]

/-- Embedding of `xnpv(rate)`: cashflows are `(day, amount)` pairs; each amount is
discounted by `(1+rate) ^ ((day − start)/365)` (a real power, since the
exponent is fractional in general). -/

noncomputable def xnpv (cashflows : List (ℤ × ℚ)) (start : ℤ) (rate : ℝ) : ℝ :=
  cashflows.foldl (fun total cf =>
    total + (cf.2 : ℝ) / (1 + rate) ^ (((cf.1 - start : ℤ) : ℝ) / 365)) 0

/-- The bracket-expansion loop of `_xirr`: at most 16 doublings of `high`
while `f_low·f_high > 0`.  Returns the final `(high, f_high)`. -/

noncomputable def expandHigh (f : ℝ → ℝ) (f_low : ℝ) : ℕ → ℝ → ℝ → ℝ × ℝ
  | 0, high, f_high => (high, f_high)
  | n + 1, high, f_high =>
    if f_low * f_high ≤ 0 then (high, f_high)
    else expandHigh f f_low n (high * 2) (f (high * 2))

/-- The bisection loop of `_xirr`: at most 120 iterations, early return when
`|f(mid)| < 1e-8`, final answer `(low+high)/2`. -/

noncomputable def bisectIrr (f : ℝ → ℝ) : ℕ → ℝ → ℝ → ℝ → ℝ → ℝ
  | 0, low, high, _, _ => (low + high) / 2
  | n + 1, low, high, f_low, f_high =>
    let mid := (low + high) / 2
    let f_mid := f mid
    if |f_mid| < 1e-8 then mid
    else if f_low * f_mid ≤ 0 then bisectIrr f n low mid f_low f_mid
    else bisectIrr f n mid high f_mid f_high

/-- Embedding of `PortfolioService._xirr`: `None` without at least two cashflows of both
signs; otherwise sort by date, bracket by doubling (up to 16 times, `None`
if still unbracketed), then bisect up to 120 iterations over
`[-0.9999, high]`. -/

noncomputable def xirr (cashflows : List (ℤ × ℚ)) : Option ℝ :=
  if cashflows.length < 2 then none
  else
    let has_pos := cashflows.any fun cf => decide (cf.2 > 0)
    let has_neg := cashflows.any fun cf => decide (cf.2 < 0)
    if !(has_pos && has_neg) then none
    else
      match List.insertionSort (fun a b : ℤ × ℚ => a.1 ≤ b.1) cashflows with
      | [] => none
      | first :: rest =>
        let start := first.1
        let f : ℝ → ℝ := fun rate => xnpv (first :: rest) start rate
        let f_low := f (-0.9999)
        let p := expandHigh f f_low 16 4 (f 4)
        if f_low * p.2 > 0 then none
        else some (bisectIrr f 120 (-0.9999) p.1 f_low p.2)

/-- Computable mirror of `expandHigh` over `ℚ`, used to evaluate the real
loop on rational data. -/

def expandHighQ (g : ℚ → ℚ) (f_low : ℚ) : ℕ → ℚ → ℚ → ℚ × ℚ
  | 0, high, f_high => (high, f_high)
  | n + 1, high, f_high =>
    if f_low * f_high ≤ 0 then (high, f_high)
    else expandHighQ g f_low n (high * 2) (g (high * 2))

/-- Computable mirror of `bisectIrr` over `ℚ`. -/

def bisectIrrQ (g : ℚ → ℚ) : ℕ → ℚ → ℚ → ℚ → ℚ → ℚ
  | 0, low, high, _, _ => (low + high) / 2
  | n + 1, low, high, f_low, f_high =>
    let mid := (low + high) / 2
    let f_mid := g mid
    if |f_mid| < 1e-8 then mid
    else if f_low * f_mid ≤ 0 then bisectIrrQ g n low mid f_low f_mid
    else bisectIrrQ g n mid high f_mid f_high

/-- The rational value of the example XNPV: for cashflows −1000 on day 0 and
+1100 on day 365, `xnpv(rate) = −1000 + 1100/(1+rate)`. -/

def gEx (r : ℚ) : ℚ := -1000 + 1100 / (1 + r)

/-! Theorems: the claims C1-C10 settled against the embedding above,
with their supporting lemmas and witnesses. -/

/-- C3: `safeDiv(a, b)` is `None` exactly when `a` is `None`, `b` is `None`
or `b = 0`; on any other input it returns exactly `a / b`, and it never
raises (it is a total function). -/
theorem C3_safe_div_characterization :
    ∀ a b : Option ℚ,
      (safeDiv a b = none ↔ a = none ∨ b = none ∨ b = some 0) ∧
      (∀ x y : ℚ, a = some x → b = some y → y ≠ 0 → safeDiv a b = some (x / y)) := by
  intro a b
  constructor
  · cases a with
    | none => simp [safeDiv]
    | some x =>
      cases b with
      | none => simp [safeDiv]
      | some y =>
        by_cases hy : y = 0 <;> simp [safeDiv, hy]
  · intro x y hx hy hy0
    subst hx; subst hy
    simp [safeDiv, hy0]

/-- Witness for C3 at a concrete input. -/
theorem C3_safe_div_characterization_witness :
    safeDiv (some 6) (some 3) = some 2 := by
  have h := (C3_safe_div_characterization (some 6) (some 3)).2 6 3 rfl rfl (by norm_num)
  simpa using h

/-- C10: with current assets and current liabilities present but inventory
missing, the quick ratio does not propagate `None`: missing inventory is
treated as 0, so the quick ratio coincides with the current ratio and equals
`current_assets / current_liabilities`. -/
theorem C10_quick_ratio_missing_inventory :
    ∀ ca cl : ℚ,
      quickRatio (some ca) none (some cl) = currentRatio (some ca) (some cl) ∧
      (cl ≠ 0 → quickRatio (some ca) none (some cl) = some (ca / cl)) := by
  intro ca cl
  constructor
  · simp [quickRatio, quickAssets, currentRatio, safeDiv]
  · intro hcl
    simp [quickRatio, quickAssets, safeDiv, hcl]

/-- Witness for C10 at a concrete input. -/
theorem C10_quick_ratio_missing_inventory_witness :
    quickRatio (some 10) none (some 4) = some (5 / 2) := by
  have h := (C10_quick_ratio_missing_inventory 10 4).2 (by norm_num)
  simpa using h

/-- C6: the Altman score is the weighted sum
`1.2·c1 + 1.4·c2 + 3.3·c3 + 0.6·c4 + 1.0·c5` of the five component ratios
(working capital, retained earnings, EBIT and revenue over assets, market
cap over liabilities); a missing component makes the score `None` with zone
"Unknown", and otherwise the zone is "Safe" above 2.99, "Grey" on
[1.81, 2.99] and "Distress" below 1.81. -/
theorem C6_altman_z_score :
    ∀ wc re ebit mcap rev ta tl : Option ℚ,
      (altman wc re ebit mcap rev ta tl).c1 = safeDiv wc ta ∧
      (altman wc re ebit mcap rev ta tl).c2 = safeDiv re ta ∧
      (altman wc re ebit mcap rev ta tl).c3 = safeDiv ebit ta ∧
      (altman wc re ebit mcap rev ta tl).c4 = safeDiv mcap tl ∧
      (altman wc re ebit mcap rev ta tl).c5 = safeDiv rev ta ∧
      (((altman wc re ebit mcap rev ta tl).c1 = none ∨
        (altman wc re ebit mcap rev ta tl).c2 = none ∨
        (altman wc re ebit mcap rev ta tl).c3 = none ∨
        (altman wc re ebit mcap rev ta tl).c4 = none ∨
        (altman wc re ebit mcap rev ta tl).c5 = none) →
        (altman wc re ebit mcap rev ta tl).score = none ∧
        (altman wc re ebit mcap rev ta tl).zone = "Unknown") ∧
      (∀ a b c d e : ℚ,
        (altman wc re ebit mcap rev ta tl).c1 = some a →
        (altman wc re ebit mcap rev ta tl).c2 = some b →
        (altman wc re ebit mcap rev ta tl).c3 = some c →
        (altman wc re ebit mcap rev ta tl).c4 = some d →
        (altman wc re ebit mcap rev ta tl).c5 = some e →
        (altman wc re ebit mcap rev ta tl).score =
          some (1.2 * a + 1.4 * b + 3.3 * c + 0.6 * d + 1.0 * e)) ∧
      (∀ s : ℚ, (altman wc re ebit mcap rev ta tl).score = some s →
        (s > 2.99 → (altman wc re ebit mcap rev ta tl).zone = "Safe") ∧
        (1.81 ≤ s ∧ s ≤ 2.99 → (altman wc re ebit mcap rev ta tl).zone = "Grey") ∧
        (s < 1.81 → (altman wc re ebit mcap rev ta tl).zone = "Distress")) := by
  intro wc re ebit mcap rev ta tl
  refine ⟨rfl, rfl, rfl, rfl, rfl, ?_, ?_, ?_⟩
  · intro h
    rcases h with h | h | h | h | h <;>
      simp only [altman] at h ⊢ <;> rw [h] <;>
      cases safeDiv wc ta <;> cases safeDiv re ta <;> cases safeDiv ebit ta <;>
      cases safeDiv mcap tl <;> cases safeDiv rev ta <;> simp_all
  · intro a b c d e h1 h2 h3 h4 h5
    simp only [altman] at h1 h2 h3 h4 h5 ⊢
    rw [h1, h2, h3, h4, h5]
  · intro s hs
    have hz : (altman wc re ebit mcap rev ta tl).zone =
        (match (altman wc re ebit mcap rev ta tl).score with
         | none => "Unknown"
         | some t => if t > 2.99 then "Safe" else if t ≥ 1.81 then "Grey" else "Distress") := rfl
    rw [hz, hs]
    refine ⟨?_, ?_, ?_⟩
    · intro hgt; simp [hgt]
    · intro h
      have hng : ¬ (s > (2.99 : ℚ)) := by linarith [h.2]
      have hge : s ≥ (1.81 : ℚ) := h.1
      simp [hng, hge]
    · intro hlt
      have hng : ¬ (s > (2.99 : ℚ)) := by linarith
      have hng2 : ¬ (s ≥ (1.81 : ℚ)) := by linarith
      simp [hng, hng2]

/-- Witness for C6 at a concrete input: all five components present. -/
theorem C6_altman_z_score_witness :
    (altman (some 1) (some 1) (some 1) (some 1) (some 1) (some 1) (some 1)).score =
      some (1.2 * 1 + 1.4 * 1 + 3.3 * 1 + 0.6 * 1 + 1.0 * 1) := by
  exact (C6_altman_z_score (some 1) (some 1) (some 1) (some 1) (some 1) (some 1)
    (some 1)).2.2.2.2.2.2.1 1 1 1 1 1 (by decide) (by decide) (by decide) (by decide)
    (by decide)

/-- C7: the Piotroski F-Score is the count of `True` signals among the nine,
an integer in `[0, 9]` whenever at least one signal is evaluable, `None`
(label "Unknown") when none is; the label is "Strong" from 7 up, "Average"
on `[4, 6]` and "Weak" below 4. -/
theorem C7_piotroski_score :
    ∀ signals : List (Option Bool), signals.length = 9 →
      ((signals.filter Option.isSome).length = 0 →
        piotroskiScore signals = none ∧ piotroskiLabel (piotroskiScore signals) = "Unknown") ∧
      ((signals.filter Option.isSome).length ≠ 0 →
        ∃ n : ℕ,
          piotroskiScore signals = some n ∧
          n = (signals.filter (fun s => s = some true)).length ∧
          n ≤ 9 ∧
          (7 ≤ n → piotroskiLabel (piotroskiScore signals) = "Strong") ∧
          (4 ≤ n ∧ n ≤ 6 → piotroskiLabel (piotroskiScore signals) = "Average") ∧
          (n < 4 → piotroskiLabel (piotroskiScore signals) = "Weak")) := by
  intro signals hlen
  constructor
  · intro h0
    constructor
    · simp [piotroskiScore, h0]
    · simp [piotroskiScore, h0, piotroskiLabel]
  · intro hne
    refine ⟨(signals.filter (fun s => s = some true)).length, ?_, rfl, ?_, ?_, ?_, ?_⟩
    · simp [piotroskiScore, hne]
    · calc (signals.filter (fun s => s = some true)).length
          ≤ signals.length := List.length_filter_le _ _
        _ = 9 := hlen
    · intro h7
      simp [piotroskiScore, hne, piotroskiLabel, h7]
    · intro ⟨h4, h6⟩
      have hn7 : ¬ (signals.filter (fun s => s = some true)).length ≥ 7 := by omega
      simp [piotroskiScore, hne, piotroskiLabel, hn7, h4]
    · intro h4
      have hn7 : ¬ (signals.filter (fun s => s = some true)).length ≥ 7 := by omega
      have hn4 : ¬ (signals.filter (fun s => s = some true)).length ≥ 4 := by omega
      simp [piotroskiScore, hne, piotroskiLabel, hn7, hn4]

/-- Witness for C7: all nine signals true gives score 9 and label
"Strong". -/
theorem C7_piotroski_score_witness :
    piotroskiScore (piotroskiSignals (some 1) (some 1) (some 0) (some 0)
        (some 0) (some 1) (some 2) (some 1) (some 1) (some 1) (some 1) (some 0)
        (some 1) (some 0)) = some 9 := by
  have h := (C7_piotroski_score (piotroskiSignals (some 1) (some 1) (some 0) (some 0)
      (some 0) (some 1) (some 2) (some 1) (some 1) (some 1) (some 1) (some 0)
      (some 1) (some 0)) (by decide)).2 (by decide)
  rcases h with ⟨n, hs, hn, _⟩
  have : n = 9 := by rw [hn]; decide
  rw [hs, this]

/-- C4: `_project_dcf` returns the all-`None` result exactly when one of the
guard conditions holds: base cash flow missing or ≤ 0, shares outstanding
missing or ≤ 0, discount rate ≤ −0.9, terminal growth ≤ −0.9, or discount
rate ≤ terminal growth + 0.002.  In all other cases the result carries a
non-`None` intrinsic value (the function is total: it never raises and ℚ has
no NaN/Infinity). -/
theorem C4_dcf_guard_all_null :
    ∀ (base : Option ℚ) (g d tg : ℚ) (years : ℕ) (shares nd mp : Option ℚ)
      (mode : String),
      dcfAllNull (projectDcf base g d tg years shares nd mp mode) ↔
        dcfGuard base d tg shares := by
  intro base g d tg years shares nd mp mode
  constructor
  · intro h
    by_contra hguard
    simp only [dcfGuard, not_or] at hguard
    obtain ⟨hb, hble, hs, hsle, hd, htg, hdtg⟩ := hguard
    match hbase : base, hshares : shares with
    | none, _ => exact hb rfl
    | some b, none => exact hs rfl
    | some b, some s =>
      have hs0 : ¬ s ≤ 0 := fun hc => hsle ⟨s, rfl, hc⟩
      have hb0 : ¬ b ≤ 0 := fun hc => hble ⟨b, rfl, hc⟩
      have hcond : ¬ (d ≤ -0.9 ∨ tg ≤ -0.9 ∨ d ≤ tg + 0.002 ∨ b ≤ 0) := by
        push_neg
        exact ⟨lt_of_not_le hd, lt_of_not_le htg, lt_of_not_le hdtg, lt_of_not_le hb0⟩
      have hsne : s ≠ 0 := fun hc => hs0 (le_of_eq hc)
      have : (projectDcf (some b) g d tg years (some s) nd mp mode).intrinsic_value_per_share ≠ none := by
        simp only [projectDcf, hs0, if_false, hcond, safeDiv, hsne]
        split <;> simp
      exact this h.2.2.2.2.2.1
  · intro h
    rcases h with h | ⟨b, hb, hble⟩ | h | ⟨s, hs, hsle⟩ | h | h | h
    · subst h
      cases shares <;> simp [projectDcf, dcfNullResult, dcfAllNull]
    · subst hb
      cases shares with
      | none => simp [projectDcf, dcfNullResult, dcfAllNull]
      | some s =>
        by_cases hs0 : s ≤ 0
        · simp [projectDcf, hs0, dcfNullResult, dcfAllNull]
        · have : d ≤ -0.9 ∨ tg ≤ -0.9 ∨ d ≤ tg + 0.002 ∨ b ≤ 0 := Or.inr (Or.inr (Or.inr hble))
          simp [projectDcf, hs0, this, dcfNullResult, dcfAllNull]
    · subst h
      cases base <;> simp [projectDcf, dcfNullResult, dcfAllNull]
    · subst hs
      cases base with
      | none => simp [projectDcf, dcfNullResult, dcfAllNull]
      | some b => simp [projectDcf, hsle, dcfNullResult, dcfAllNull]
    · cases base with
      | none => simp [projectDcf, dcfNullResult, dcfAllNull]
      | some b =>
        cases shares with
        | none => simp [projectDcf, dcfNullResult, dcfAllNull]
        | some s =>
          by_cases hs0 : s ≤ 0
          · simp [projectDcf, hs0, dcfNullResult, dcfAllNull]
          · have : d ≤ -0.9 ∨ tg ≤ -0.9 ∨ d ≤ tg + 0.002 ∨ b ≤ 0 := Or.inl h
            simp [projectDcf, hs0, this, dcfNullResult, dcfAllNull]
    · cases base with
      | none => simp [projectDcf, dcfNullResult, dcfAllNull]
      | some b =>
        cases shares with
        | none => simp [projectDcf, dcfNullResult, dcfAllNull]
        | some s =>
          by_cases hs0 : s ≤ 0
          · simp [projectDcf, hs0, dcfNullResult, dcfAllNull]
          · have : d ≤ -0.9 ∨ tg ≤ -0.9 ∨ d ≤ tg + 0.002 ∨ b ≤ 0 := Or.inr (Or.inl h)
            simp [projectDcf, hs0, this, dcfNullResult, dcfAllNull]
    · cases base with
      | none => simp [projectDcf, dcfNullResult, dcfAllNull]
      | some b =>
        cases shares with
        | none => simp [projectDcf, dcfNullResult, dcfAllNull]
        | some s =>
          by_cases hs0 : s ≤ 0
          · simp [projectDcf, hs0, dcfNullResult, dcfAllNull]
          · have : d ≤ -0.9 ∨ tg ≤ -0.9 ∨ d ≤ tg + 0.002 ∨ b ≤ 0 := Or.inr (Or.inr (Or.inl h))
            simp [projectDcf, hs0, this, dcfNullResult, dcfAllNull]

/-- Witness for C4: a degenerate discount rate (≤ terminal growth + 0.002)
yields the all-`None` result. -/
theorem C4_dcf_guard_all_null_witness :
    dcfAllNull (projectDcf (some 100) 0.05 0.03 0.03 5 (some 10) none none "fcff") := by
  exact (C4_dcf_guard_all_null (some 100) 0.05 0.03 0.03 5 (some 10) none none
    "fcff").2 (Or.inr (Or.inr (Or.inr (Or.inr (Or.inr (Or.inr (by norm_num)))))))

theorem dcfProjection_succ (b g d : ℚ) (n : ℕ) :
    dcfProjection b g d (n + 1) =
      dcfProjection b g d n ++
        [(n + 1, b * (1 + g) ^ (n + 1), b * (1 + g) ^ (n + 1) / (1 + d) ^ (n + 1))] := by
  simp [dcfProjection, List.range_succ]

theorem dcf_pv_foldl (b g d : ℚ) (n : ℕ) :
    (dcfProjection b g d n).foldl (fun acc row => acc + row.2.2) 0 = pvQ b g d n := by
  induction n with
  | zero => rfl
  | succ n ih =>
    rw [dcfProjection_succ, List.foldl_append, ih]
    rfl

theorem dcf_last_foldl (b g d : ℚ) (n : ℕ) :
    (dcfProjection b g d n).foldl (fun _ row => row.2.1) b = lastCfQ b g n := by
  cases n with
  | zero => rfl
  | succ n =>
    rw [dcfProjection_succ, List.foldl_append]
    simp [lastCfQ]

/-- In the guard-free case, the intrinsic value per share of `_project_dcf`
has the closed form `(pv + pv_terminal − net_debt·[fcff]) / shares`. -/
theorem dcf_intrinsic_closed_form (b g d tg : ℚ) (years : ℕ) (s : ℚ)
    (nd mp : Option ℚ) (mode : String)
    (hb : 0 < b) (hs : 0 < s) (hd : -0.9 < d) (htg : -0.9 < tg)
    (hdtg : tg + 0.002 < d) :
    (projectDcf (some b) g d tg years (some s) nd mp mode).intrinsic_value_per_share =
      some ((pvQ b g d years + pvTermQ b g d tg years -
        (if mode = "fcff" then nd.getD 0 else 0)) / s) := by
  have hs0 : ¬ s ≤ 0 := not_le.mpr hs
  have hcond : ¬ (d ≤ -0.9 ∨ tg ≤ -0.9 ∨ d ≤ tg + 0.002 ∨ b ≤ 0) := by
    push_neg
    exact ⟨hd, htg, hdtg, hb⟩
  have hsne : s ≠ 0 := ne_of_gt hs
  by_cases hm : mode = "fcff" <;>
    simp [projectDcf, hs0, hcond, dcf_pv_foldl, dcf_last_foldl, safeDiv,
      hsne, hm, pvTermQ]

theorem pvQ_le_of_growth_le (b g1 g2 d : ℚ) (hb : 0 < b) (hd : 0 < 1 + d)
    (hg1 : 0 ≤ 1 + g1) (hgg : g1 ≤ g2) :
    ∀ n : ℕ, pvQ b g1 d n ≤ pvQ b g2 d n := by
  intro n
  induction n with
  | zero => exact le_refl _
  | succ n ih =>
    simp only [pvQ]
    have hpow : (1 + g1) ^ (n + 1) ≤ (1 + g2) ^ (n + 1) := by
      exact pow_le_pow_left hg1 (by linarith) _
    have hden : (0 : ℚ) < (1 + d) ^ (n + 1) := pow_pos hd _
    have hnum : b * (1 + g1) ^ (n + 1) ≤ b * (1 + g2) ^ (n + 1) :=
      mul_le_mul_of_nonneg_left hpow hb.le
    have hdiv : b * (1 + g1) ^ (n + 1) / (1 + d) ^ (n + 1) ≤
        b * (1 + g2) ^ (n + 1) / (1 + d) ^ (n + 1) := by gcongr
    linarith

theorem pvQ_lt_of_growth_lt (b g1 g2 d : ℚ) (hb : 0 < b) (hd : 0 < 1 + d)
    (hg1 : 0 ≤ 1 + g1) (hgg : g1 < g2) (n : ℕ) (hn : 1 ≤ n) :
    pvQ b g1 d n < pvQ b g2 d n := by
  obtain ⟨m, rfl⟩ : ∃ m, n = m + 1 := ⟨n - 1, by omega⟩
  simp only [pvQ]
  have hle := pvQ_le_of_growth_le b g1 g2 d hb hd hg1 hgg.le m
  have hpow : (1 + g1) ^ (m + 1) < (1 + g2) ^ (m + 1) :=
    pow_lt_pow_left (by linarith) hg1 (Nat.succ_ne_zero m)
  have hden : (0 : ℚ) < (1 + d) ^ (m + 1) := pow_pos hd _
  have hstep : b * (1 + g1) ^ (m + 1) / (1 + d) ^ (m + 1) <
      b * (1 + g2) ^ (m + 1) / (1 + d) ^ (m + 1) := by
    apply div_lt_div_of_pos_right ?_ hden |>.trans_eq rfl
    · exact mul_lt_mul_of_pos_left hpow hb
  linarith

theorem pvTermQ_lt_of_growth_lt (b g1 g2 d tg : ℚ) (hb : 0 < b)
    (hd : 0 < 1 + d) (htg : 0 < 1 + tg) (hdtg : 0 < d - tg)
    (hg1 : 0 ≤ 1 + g1) (hgg : g1 < g2) (n : ℕ) (hn : 1 ≤ n) :
    pvTermQ b g1 d tg n < pvTermQ b g2 d tg n := by
  obtain ⟨m, rfl⟩ : ∃ m, n = m + 1 := ⟨n - 1, by omega⟩
  have hlast : lastCfQ b g1 (m + 1) < lastCfQ b g2 (m + 1) := by
    simp only [lastCfQ, if_neg (Nat.succ_ne_zero m)]
    exact mul_lt_mul_of_pos_left
      (pow_lt_pow_left (by linarith) hg1 (Nat.succ_ne_zero m)) hb
  have hden : (0 : ℚ) < (1 + d) ^ (m + 1) := pow_pos hd _
  unfold pvTermQ
  have h1 : lastCfQ b g1 (m + 1) * (1 + tg) / (d - tg) <
      lastCfQ b g2 (m + 1) * (1 + tg) / (d - tg) := by
    apply div_lt_div_of_pos_right ?_ hdtg
    exact mul_lt_mul_of_pos_right hlast htg
  exact div_lt_div_of_pos_right h1 hden

theorem pvQ_antitone_discount (b g d1 d2 : ℚ) (hb : 0 < b) (hx : 0 < 1 + g)
    (hd1 : 0 < 1 + d1) (hdd : d1 ≤ d2) :
    ∀ n : ℕ, pvQ b g d2 n ≤ pvQ b g d1 n := by
  intro n
  induction n with
  | zero => exact le_refl _
  | succ n ih =>
    simp only [pvQ]
    have hnum : 0 < b * (1 + g) ^ (n + 1) := mul_pos hb (pow_pos hx _)
    have hpden : (0 : ℚ) < (1 + d1) ^ (n + 1) := pow_pos hd1 _
    have hpow : (1 + d1) ^ (n + 1) ≤ (1 + d2) ^ (n + 1) :=
      pow_le_pow_left hd1.le (by linarith) _
    have : b * (1 + g) ^ (n + 1) / (1 + d2) ^ (n + 1) ≤
        b * (1 + g) ^ (n + 1) / (1 + d1) ^ (n + 1) :=
      div_le_div_of_nonneg_left hnum.le hpden hpow
    linarith

theorem pvTermQ_lt_of_discount_lt (b g d1 d2 tg : ℚ) (hb : 0 < b)
    (hx : 0 < 1 + g) (htg : 0 < 1 + tg) (hd1 : 0 < 1 + d1)
    (hdtg : 0 < d1 - tg) (hdd : d1 < d2) (n : ℕ) :
    pvTermQ b g d2 tg n < pvTermQ b g d1 tg n := by
  have hlast : 0 < lastCfQ b g n := by
    unfold lastCfQ
    split
    · exact hb
    · exact mul_pos hb (pow_pos hx _)
  have hnum : 0 < lastCfQ b g n * (1 + tg) := mul_pos hlast htg
  have htv2 : 0 < lastCfQ b g n * (1 + tg) / (d2 - tg) :=
    div_pos hnum (by linarith)
  have htv : lastCfQ b g n * (1 + tg) / (d2 - tg) <
      lastCfQ b g n * (1 + tg) / (d1 - tg) :=
    div_lt_div_of_pos_left hnum hdtg (by linarith)
  have hpden : (0 : ℚ) < (1 + d1) ^ n := pow_pos hd1 _
  have hpow : (1 + d1) ^ n ≤ (1 + d2) ^ n := pow_le_pow_left hd1.le (by linarith) _
  unfold pvTermQ
  calc lastCfQ b g n * (1 + tg) / (d2 - tg) / (1 + d2) ^ n
      ≤ lastCfQ b g n * (1 + tg) / (d2 - tg) / (1 + d1) ^ n :=
        div_le_div_of_nonneg_left htv2.le hpden hpow
    _ < lastCfQ b g n * (1 + tg) / (d1 - tg) / (1 + d1) ^ n :=
        div_lt_div_of_pos_right htv hpden

/-- C5 counterexample: with no guard triggered, monotonicity of the
intrinsic value fails on the unguarded region.  With `growth < -1`
(`b=1, d=1/10, tg=1/50, years=2`), raising growth from −3 to −5/2 strictly
*decreases* the intrinsic value; with `projection_years = 0` the intrinsic
value does not depend on growth at all; and at `growth = −1` it does not
depend on the discount rate. -/
theorem C5_dcf_monotonicity_counterexample :
    ((projectDcf (some 1) (-3) (1/10) (1/50) 2 (some 1) none none
        "fcff").intrinsic_value_per_share = some (480/11)) ∧
    ((projectDcf (some 1) (-5/2) (1/10) (1/50) 2 (some 1) none none
        "fcff").intrinsic_value_per_share = some (1065/44)) ∧
    (1065/44 : ℚ) < 480/11 ∧
    ((projectDcf (some 1) 0 (1/10) (1/50) 0 (some 1) none none
        "fcff").intrinsic_value_per_share =
      (projectDcf (some 1) (1/10) (1/10) (1/50) 0 (some 1) none none
        "fcff").intrinsic_value_per_share) ∧
    ((projectDcf (some 1) (-1) (1/10) 0 1 (some 1) none none
        "fcff").intrinsic_value_per_share =
      (projectDcf (some 1) (-1) (1/5) 0 1 (some 1) none none
        "fcff").intrinsic_value_per_share) := by
  refine ⟨by decide, by decide, by decide, by decide, by decide⟩

/-- C5 amended: with the additional hypotheses that the growth rates exceed
−1 (and, for the growth direction, that there is at least one projection
year), the intrinsic value per share is strictly increasing in the growth
rate and strictly decreasing in the discount rate whenever no guard
condition is triggered. -/
theorem C5_dcf_monotonicity_amended :
    (∀ (b g1 g2 d tg : ℚ) (years : ℕ) (s : ℚ) (nd mp : Option ℚ)
      (mode : String),
      0 < b → 0 < s → -0.9 < d → -0.9 < tg → tg + 0.002 < d →
      1 ≤ years → -1 < g1 → g1 < g2 →
      ∃ v1 v2 : ℚ,
        (projectDcf (some b) g1 d tg years (some s) nd mp
          mode).intrinsic_value_per_share = some v1 ∧
        (projectDcf (some b) g2 d tg years (some s) nd mp
          mode).intrinsic_value_per_share = some v2 ∧
        v1 < v2) ∧
    (∀ (b g d1 d2 tg : ℚ) (years : ℕ) (s : ℚ) (nd mp : Option ℚ)
      (mode : String),
      0 < b → 0 < s → -0.9 < tg → tg + 0.002 < d1 → d1 < d2 → -1 < g →
      ∃ v1 v2 : ℚ,
        (projectDcf (some b) g d1 tg years (some s) nd mp
          mode).intrinsic_value_per_share = some v1 ∧
        (projectDcf (some b) g d2 tg years (some s) nd mp
          mode).intrinsic_value_per_share = some v2 ∧
        v2 < v1) := by
  constructor
  · intro b g1 g2 d tg years s nd mp mode hb hs hd htg hdtg hy hg1 hgg
    refine ⟨_, _, dcf_intrinsic_closed_form b g1 d tg years s nd mp mode hb hs hd htg hdtg,
      dcf_intrinsic_closed_form b g2 d tg years s nd mp mode hb hs hd htg hdtg, ?_⟩
    have hd1 : (0 : ℚ) < 1 + d := by linarith
    have htg1 : (0 : ℚ) < 1 + tg := by linarith
    have hdtg0 : (0 : ℚ) < d - tg := by linarith
    have h1 := pvQ_lt_of_growth_lt b g1 g2 d hb hd1 (by linarith) hgg years hy
    have h2 := pvTermQ_lt_of_growth_lt b g1 g2 d tg hb hd1 htg1 hdtg0
      (by linarith) hgg years hy
    have : pvQ b g1 d years + pvTermQ b g1 d tg years -
        (if mode = "fcff" then nd.getD 0 else 0) <
        pvQ b g2 d years + pvTermQ b g2 d tg years -
        (if mode = "fcff" then nd.getD 0 else 0) := by linarith
    exact div_lt_div_of_pos_right this hs
  · intro b g d1 d2 tg years s nd mp mode hb hs htg hdtg hdd hg
    have hd1' : -0.9 < d1 := by linarith
    have hd2' : -0.9 < d2 := by linarith
    have hdtg2 : tg + 0.002 < d2 := by linarith
    refine ⟨_, _, dcf_intrinsic_closed_form b g d1 tg years s nd mp mode hb hs hd1' htg hdtg,
      dcf_intrinsic_closed_form b g d2 tg years s nd mp mode hb hs hd2' htg hdtg2, ?_⟩
    have hx : (0 : ℚ) < 1 + g := by linarith
    have hd1p : (0 : ℚ) < 1 + d1 := by linarith
    have htg1 : (0 : ℚ) < 1 + tg := by linarith
    have hdtg0 : (0 : ℚ) < d1 - tg := by linarith
    have h1 := pvQ_antitone_discount b g d1 d2 hb hx hd1p hdd.le years
    have h2 := pvTermQ_lt_of_discount_lt b g d1 d2 tg hb hx htg1 hd1p hdtg0 hdd years
    have : pvQ b g d2 years + pvTermQ b g d2 tg years -
        (if mode = "fcff" then nd.getD 0 else 0) <
        pvQ b g d1 years + pvTermQ b g d1 tg years -
        (if mode = "fcff" then nd.getD 0 else 0) := by linarith
    exact div_lt_div_of_pos_right this hs

/-- Witness for C5 (amended) at concrete inputs. -/
theorem C5_dcf_monotonicity_amended_witness :
    (∃ v1 v2 : ℚ,
      (projectDcf (some 1) 0 (1/2) 0 1 (some 1) none none
        "fcff").intrinsic_value_per_share = some v1 ∧
      (projectDcf (some 1) (1/10) (1/2) 0 1 (some 1) none none
        "fcff").intrinsic_value_per_share = some v2 ∧
      v1 < v2) ∧
    (∃ v1 v2 : ℚ,
      (projectDcf (some 1) 0 (1/2) 0 1 (some 1) none none
        "fcff").intrinsic_value_per_share = some v1 ∧
      (projectDcf (some 1) 0 (3/5) 0 1 (some 1) none none
        "fcff").intrinsic_value_per_share = some v2 ∧
      v2 < v1) := by
  constructor
  · exact C5_dcf_monotonicity_amended.1 1 0 (1/10) (1/2) 0 1 1 none none "fcff"
      (by norm_num) (by norm_num) (by norm_num) (by norm_num) (by norm_num)
      (by norm_num) (by norm_num) (by norm_num)
  · exact C5_dcf_monotonicity_amended.2 1 0 (1/2) (3/5) 0 1 1 none none "fcff"
      (by norm_num) (by norm_num) (by norm_num) (by norm_num) (by norm_num)
      (by norm_num)

theorem dcf_intrinsic_none_of_bad (b g d tg : ℚ) (years : ℕ) (s : ℚ)
    (nd mp : Option ℚ) (mode : String)
    (h : d ≤ -0.9 ∨ tg ≤ -0.9 ∨ d ≤ tg + 0.002) :
    (projectDcf (some b) g d tg years (some s) nd mp
      mode).intrinsic_value_per_share = none := by
  by_cases hs0 : s ≤ 0
  · simp [projectDcf, hs0, dcfNullResult]
  · have hc : d ≤ -0.9 ∨ tg ≤ -0.9 ∨ d ≤ tg + 0.002 ∨ b ≤ 0 := by tauto
    simp [projectDcf, hs0, hc, dcfNullResult]

theorem revDcfLoop_isSome (b d tg : ℚ) (years : ℕ) (s : ℚ) (nd : Option ℚ)
    (m : ℚ) (mode : String)
    (hb : 0 < b) (hs : 0 < s) (hd : -0.9 < d) (htg : -0.9 < tg)
    (hdtg : tg + 0.002 < d) :
    ∀ (fuel : ℕ) (low high : ℚ), low ≤ high →
      ∃ r, revDcfLoop (some b) d tg years (some s) nd m mode fuel low high =
        some r ∧ low ≤ r ∧ r ≤ high := by
  intro fuel
  induction fuel with
  | zero =>
    intro low high hlh
    exact ⟨(low + high) / 2, rfl, by linarith, by linarith⟩
  | succ n ih =>
    intro low high hlh
    have hmid1 : low ≤ (low + high) / 2 := by linarith
    have hmid2 : (low + high) / 2 ≤ high := by linarith
    obtain ⟨r1, hr1, ha1, hb1⟩ := ih low ((low + high) / 2) hmid1
    obtain ⟨r2, hr2, ha2, hb2⟩ := ih ((low + high) / 2) high hmid2
    obtain ⟨P, hP⟩ : ∃ P, (projectDcf (some b) ((low + high) / 2) d tg years
        (some s) nd (some m) mode).intrinsic_value_per_share = some P :=
      ⟨_, dcf_intrinsic_closed_form b ((low + high) / 2) d tg years s nd
        (some m) mode hb hs hd htg hdtg⟩
    simp only [revDcfLoop, hP]
    by_cases hp : P > m
    · simp only [if_pos hp]
      exact ⟨r1, hr1, ha1, le_trans hb1 hmid2⟩
    · simp only [if_neg hp]
      exact ⟨r2, hr2, le_trans hmid1 ha2, hb2⟩

theorem revDcfLoop_none_of_bad (b d tg : ℚ) (years : ℕ) (s : ℚ)
    (nd : Option ℚ) (m : ℚ) (mode : String)
    (h : d ≤ -0.9 ∨ tg ≤ -0.9 ∨ d ≤ tg + 0.002) (fuel : ℕ) (low high : ℚ) :
    revDcfLoop (some b) d tg years (some s) nd m mode (fuel + 1) low high =
      none := by
  simp only [revDcfLoop,
    dcf_intrinsic_none_of_bad b ((low + high) / 2) d tg years s nd (some m) mode h]

/-- C2 counterexample: valid inputs (base 1, discount 1/2, terminal growth 0,
one projection year, one share, market price 1000, fcff mode) for which no
growth rate in `[-0.30, 0.45]` attains the market price — every intrinsic
value there is `2·(1+g) ≤ 2.9` — yet `_reverse_dcf_growth` does not return
`None`: the bisection never checks bracketing. -/
theorem C2_reverse_dcf_counterexample :
    (∀ g : ℚ, -0.30 ≤ g → g ≤ 0.45 →
      (projectDcf (some 1) g (1/2) 0 1 (some 1) none (some 1000)
        "fcff").intrinsic_value_per_share ≠ some 1000) ∧
    reverseDcfGrowth (some 1) (1/2) 0 1 (some 1) none (some 1000) "fcff" ≠
      none := by
  constructor
  · intro g hg1 hg2 hcontra
    rw [dcf_intrinsic_closed_form 1 g (1/2) 0 1 1 none (some 1000) "fcff"
      one_pos one_pos (by norm_num) (by norm_num) (by norm_num)] at hcontra
    simp only [Option.some.injEq] at hcontra
    simp [pvQ, pvTermQ, lastCfQ] at hcontra
    field_simp at hcontra
    linarith
  · decide

/-- C2 amended: `_reverse_dcf_growth` returns `None` exactly when an input
is invalid (base cash flow, shares outstanding or market price missing or
non-positive) or the inner projection is guarded off (discount ≤ −0.9,
terminal growth ≤ −0.9, or discount ≤ terminal growth + 0.002).  Otherwise
it always returns a growth rate inside `[-0.30, 0.45]` after its 70
bisection iterations — whether or not any growth rate in that interval
attains the market price. -/
theorem C2_reverse_dcf_amended :
    ∀ (base : Option ℚ) (d tg : ℚ) (years : ℕ) (shares nd mp : Option ℚ)
      (mode : String),
      ((base = none ∨ (∃ b, base = some b ∧ b ≤ 0) ∨ shares = none ∨
        (∃ s, shares = some s ∧ s ≤ 0) ∨ mp = none ∨
        (∃ m, mp = some m ∧ m ≤ 0)) →
        reverseDcfGrowth base d tg years shares nd mp mode = none) ∧
      (∀ b s m : ℚ, base = some b → shares = some s → mp = some m →
        0 < b → 0 < s → 0 < m →
        (reverseDcfGrowth base d tg years shares nd mp mode = none ↔
          d ≤ -0.9 ∨ tg ≤ -0.9 ∨ d ≤ tg + 0.002) ∧
        (-0.9 < d → -0.9 < tg → tg + 0.002 < d →
          ∃ r, reverseDcfGrowth base d tg years shares nd mp mode = some r ∧
            -0.30 ≤ r ∧ r ≤ 0.45)) := by
  intro base d tg years shares nd mp mode
  constructor
  · intro h
    rcases h with h | ⟨b, hb, hble⟩ | h | ⟨s, hs, hsle⟩ | h | ⟨m, hm, hmle⟩
    · subst h; cases shares <;> cases mp <;> rfl
    · subst hb
      cases shares with
      | none => cases mp <;> rfl
      | some s =>
        cases mp with
        | none => rfl
        | some m => simp [reverseDcfGrowth, hble]
    · subst h; cases base <;> cases mp <;> rfl
    · subst hs
      cases base with
      | none => cases mp <;> rfl
      | some b =>
        cases mp with
        | none => rfl
        | some m => simp [reverseDcfGrowth, hsle]
    · subst h; cases base <;> cases shares <;> rfl
    · subst hm
      cases base with
      | none => cases shares <;> rfl
      | some b =>
        cases shares with
        | none => rfl
        | some s => simp [reverseDcfGrowth, hmle]
  · intro b s m hbase hshares hmp hb hs hm
    subst hbase; subst hshares; subst hmp
    have hguard : ¬ (b ≤ 0 ∨ s ≤ 0 ∨ m ≤ 0) := by push_neg; exact ⟨hb, hs, hm⟩
    constructor
    · constructor
      · intro hnone
        by_contra hbad
        push_neg at hbad
        obtain ⟨hd, htg, hdtg⟩ := hbad
        obtain ⟨r, hr, _, _⟩ := revDcfLoop_isSome b d tg years s nd m mode hb hs
          hd htg hdtg 70 (-0.30) 0.45 (by norm_num)
        rw [reverseDcfGrowth.eq_def] at hnone
        simp only [hguard, if_false] at hnone
        rw [hnone] at hr
        exact Option.noConfusion hr
      · intro hbad
        rw [reverseDcfGrowth.eq_def]
        simp only [hguard, if_false]
        exact revDcfLoop_none_of_bad b d tg years s nd m mode hbad 69 (-0.30) 0.45
    · intro hd htg hdtg
      obtain ⟨r, hr, h1, h2⟩ := revDcfLoop_isSome b d tg years s nd m mode hb hs
        hd htg hdtg 70 (-0.30) 0.45 (by norm_num)
      refine ⟨r, ?_, h1, h2⟩
      rw [reverseDcfGrowth.eq_def]
      simp only [hguard, if_false]
      exact hr

/-- Witness for C2 (amended) at concrete inputs. -/
theorem C2_reverse_dcf_amended_witness :
    reverseDcfGrowth none (1/10) 0 5 (some 1) none (some 10) "fcff" = none ∧
    (∃ r, reverseDcfGrowth (some 1) (1/10) 0 5 (some 1) none (some 10)
      "fcff" = some r ∧ -0.30 ≤ r ∧ r ≤ 0.45) := by
  constructor
  · exact (C2_reverse_dcf_amended none (1/10) 0 5 (some 1) none (some 10)
      "fcff").1 (Or.inl rfl)
  · exact ((C2_reverse_dcf_amended (some 1) (1/10) 0 5 (some 1) none (some 10)
      "fcff").2 1 1 10 rfl rfl rfl (by norm_num) (by norm_num) (by norm_num)).2
      (by norm_num) (by norm_num) (by norm_num)

/-- C9: for every row that reaches scoring, the composite score is the
clamp to `[0, 100]` of (rounded) `28 + quality + growth + risk + momentum`,
where each sub-score is a sum of clamped linear signal contributions; in
particular a present (normalized) ROE contributes exactly
`clamp(roe·120, −8, 14)` points to the quality sub-score, additively. -/
theorem C9_screener_score :
    ∀ row : ScreenerRow,
      0 ≤ totalScore row ∧ totalScore row ≤ 100 ∧
      totalScore row = max 0 (min 100 (pyRound (28 +
        (qualityScore row + growthScore row + riskScore row + momentumScore row)))) ∧
      (∀ r : ℚ, normalizeRate row.roe = some r →
        qualityScore row =
          clampQ (r * 120) (-8) 14 + qualityScore { row with roe := none }) := by
  intro row
  refine ⟨le_max_left 0 _, max_le (by norm_num) (min_le_left 100 _), ?_, ?_⟩
  · have harg : (28.0 : ℚ) + qualityScore row + growthScore row + riskScore row +
        momentumScore row = 28 +
        (qualityScore row + growthScore row + riskScore row + momentumScore row) := by
      norm_num
      ring
    rw [totalScore, harg]
  · intro r hroe
    simp only [qualityScore]
    rw [hroe]
    simp only [normalizeRate]
    ring

/-- Witness for C9 at a concrete row (ROE 10%, all other inputs missing). -/
theorem C9_screener_score_witness :
    qualityScore ⟨some 0.1, none, none, none, none, none, none, none, none,
        none, none, none, none, false, false, false, false, false⟩ =
      clampQ (0.1 * 120) (-8) 14 +
      qualityScore ⟨none, none, none, none, none, none, none, none, none,
        none, none, none, none, false, false, false, false, false⟩ := by
  exact (C9_screener_score ⟨some 0.1, none, none, none, none, none, none, none,
    none, none, none, none, none, false, false, false, false, false⟩).2.2.2 0.1
    (by decide)

theorem charsLe_total : ∀ xs ys : List Char,
    charsLe xs ys = true ∨ charsLe ys xs = true := by
  intro xs
  induction xs with
  | nil => intro ys; left; rfl
  | cons x xs ih =>
    intro ys
    cases ys with
    | nil => right; rfl
    | cons y ys =>
      by_cases h1 : x.toNat < y.toNat
      · left; simp [charsLe, h1]
      · by_cases h2 : y.toNat < x.toNat
        · right; simp [charsLe, h1, h2]
        · rcases ih ys with h | h
          · left; simp [charsLe, h1, h2, h]
          · right; simp [charsLe, h1, h2, h]

theorem charsLe_trans : ∀ xs ys zs : List Char,
    charsLe xs ys = true → charsLe ys zs = true → charsLe xs zs = true := by
  intro xs
  induction xs with
  | nil => intro ys zs _ _; rfl
  | cons x xs ih =>
    intro ys zs hxy hyz
    cases ys with
    | nil => simp [charsLe] at hxy
    | cons y ys =>
      cases zs with
      | nil => simp [charsLe] at hyz
      | cons z zs =>
        simp only [charsLe] at hxy hyz ⊢
        by_cases h1 : x.toNat < y.toNat
        · by_cases h2 : y.toNat < z.toNat
          · have h3 : x.toNat < z.toNat := by omega
            simp [h3]
          · by_cases h2' : z.toNat < y.toNat
            · simp [h2, h2'] at hyz
            · have h3 : x.toNat < z.toNat := by omega
              simp [h3]
        · by_cases h1' : y.toNat < x.toNat
          · simp [h1, h1'] at hxy
          · by_cases h2 : y.toNat < z.toNat
            · have h3 : x.toNat < z.toNat := by omega
              simp [h3]
            · by_cases h2' : z.toNat < y.toNat
              · simp [h2, h2'] at hyz
              · have h3 : ¬ x.toNat < z.toNat := by omega
                have h3' : ¬ z.toNat < x.toNat := by omega
                simp only [h1, h1', if_false] at hxy
                simp only [h2, h2', if_false] at hyz
                simp [h3, h3', ih ys zs hxy hyz]

theorem dateKeyLt_cases (a b : Option ℤ) :
    dateKeyLt a b = true ∨ a = b ∨ dateKeyLt b a = true := by
  cases a with
  | none =>
    cases b with
    | none => exact Or.inr (Or.inl rfl)
    | some y => exact Or.inl rfl
  | some x =>
    cases b with
    | none => exact Or.inr (Or.inr rfl)
    | some y =>
      rcases lt_trichotomy x y with h | h | h
      · exact Or.inl (by simp [dateKeyLt, h])
      · exact Or.inr (Or.inl (by rw [h]))
      · exact Or.inr (Or.inr (by simp [dateKeyLt, h]))

theorem dateKeyLt_trans (a b c : Option ℤ) (hab : dateKeyLt a b = true)
    (hbc : dateKeyLt b c = true) : dateKeyLt a c = true := by
  cases a <;> cases b <;> cases c <;> simp [dateKeyLt] at * <;> omega

theorem txLe_iff (a b : Tx) :
    txLe a b = true ↔
      (dateKeyLt a.trade_date b.trade_date = true ∨
       (a.trade_date = b.trade_date ∧
        charsLe a.created_at.data b.created_at.data = true)) := by
  simp [txLe, Bool.or_eq_true, Bool.and_eq_true, beq_iff_eq]

theorem txLe_total : ∀ a b : Tx, txLe a b = true ∨ txLe b a = true := by
  intro a b
  rcases dateKeyLt_cases a.trade_date b.trade_date with h | h | h
  · exact Or.inl ((txLe_iff a b).mpr (Or.inl h))
  · rcases charsLe_total a.created_at.data b.created_at.data with hs | hs
    · exact Or.inl ((txLe_iff a b).mpr (Or.inr ⟨h, hs⟩))
    · exact Or.inr ((txLe_iff b a).mpr (Or.inr ⟨h.symm, hs⟩))
  · exact Or.inr ((txLe_iff b a).mpr (Or.inl h))

theorem txLe_trans : ∀ a b c : Tx, txLe a b = true → txLe b c = true →
    txLe a c = true := by
  intro a b c hab hbc
  rcases (txLe_iff a b).mp hab with h1 | ⟨h1, hs1⟩ <;>
    rcases (txLe_iff b c).mp hbc with h2 | ⟨h2, hs2⟩
  · exact (txLe_iff a c).mpr (Or.inl (dateKeyLt_trans _ _ _ h1 h2))
  · exact (txLe_iff a c).mpr (Or.inl (h2 ▸ h1))
  · exact (txLe_iff a c).mpr (Or.inl (h1 ▸ h2))
  · exact (txLe_iff a c).mpr (Or.inr ⟨h1.trans h2, charsLe_trans _ _ _ hs1 hs2⟩)

instance : IsTotal Tx (fun a b => txLe a b = true) := ⟨txLe_total⟩

instance : IsTrans Tx (fun a b => txLe a b = true) := ⟨txLe_trans⟩

/-- C1: the realized-gain engine processes ledgers in ascending
`(trade_date, created_at)` order — its result on any ledger equals its
result on the pre-sorted ledger — and on the spec's example (buy 10@$100 on
day 1, buy 10@$120 on day 40, sell 15@$150 on day 400, given out of order)
FIFO matching with gain `matched·(unit_proceeds − lot.unit_cost)` and the
365-day long-term threshold yields `realized_long_term = 500` (day-1 lot,
held 399 days) and `realized_short_term = 150` (day-40 lot, held 360
days). -/
theorem C1_fifo_lot_matching :
    (∀ (today : ℤ) (txs : List Tx) (hp : String → Option ℚ),
      taxGainCalculation today txs hp =
        taxGainCalculation today (sortTransactions txs) hp) ∧
    (taxGainCalculation 1000 exampleLedger (fun _ => none)).realized_long_term
      = 500 ∧
    (taxGainCalculation 1000 exampleLedger (fun _ => none)).realized_short_term
      = 150 := by
  refine ⟨?_, by decide, by decide⟩
  intro today txs hp
  have hidem : sortTransactions (sortTransactions txs) = sortTransactions txs :=
    List.Sorted.insertionSort_eq
      (List.sorted_insertionSort (fun a b => txLe a b = true) txs)
  simp only [taxGainCalculation, hidem]

/-- Witness for C1: order invariance instantiated on the example ledger. -/
theorem C1_fifo_lot_matching_witness :
    taxGainCalculation 1000 exampleLedger (fun _ => none) =
      taxGainCalculation 1000 (sortTransactions exampleLedger)
        (fun _ => none) :=
  C1_fifo_lot_matching.1 1000 exampleLedger (fun _ => none)

theorem expandHigh_cast (f : ℝ → ℝ) (g : ℚ → ℚ)
    (hfg : ∀ q : ℚ, f (q : ℝ) = ((g q : ℚ) : ℝ)) (fl : ℚ) :
    ∀ (n : ℕ) (h fh : ℚ),
      expandHigh f (fl : ℝ) n (h : ℝ) (fh : ℝ) =
        (((expandHighQ g fl n h fh).1 : ℝ), ((expandHighQ g fl n h fh).2 : ℝ)) := by
  intro n
  induction n with
  | zero => intro h fh; rfl
  | succ n ih =>
    intro h fh
    have hcast : ((fl : ℝ) * (fh : ℝ) ≤ 0) ↔ fl * fh ≤ 0 := by
      constructor <;> intro hx <;> exact_mod_cast hx
    by_cases hc : fl * fh ≤ 0
    · simp only [expandHigh, expandHighQ, if_pos (hcast.mpr hc), if_pos hc]
    · simp only [expandHigh, expandHighQ, if_neg (fun hx => hc (hcast.mp hx)),
        if_neg hc]
      have h2 : (h : ℝ) * 2 = ((h * 2 : ℚ) : ℝ) := by push_cast; ring
      rw [h2, hfg (h * 2)]
      exact ih (h * 2) (g (h * 2))

theorem bisectIrr_cast (f : ℝ → ℝ) (g : ℚ → ℚ)
    (hfg : ∀ q : ℚ, f (q : ℝ) = ((g q : ℚ) : ℝ)) :
    ∀ (n : ℕ) (low high fl fh : ℚ),
      bisectIrr f n (low : ℝ) (high : ℝ) (fl : ℝ) (fh : ℝ) =
        ((bisectIrrQ g n low high fl fh : ℚ) : ℝ) := by
  intro n
  induction n with
  | zero =>
    intro low high fl fh
    rw [show bisectIrrQ g 0 low high fl fh = (low + high) / 2 from rfl]
    show ((low : ℝ) + high) / 2 = _
    push_cast
    ring
  | succ n ih =>
    intro low high fl fh
    have hmid : ((low : ℝ) + high) / 2 = (((low + high) / 2 : ℚ) : ℝ) := by
      push_cast; ring
    have htol : ((1e-8 : ℚ) : ℝ) = (1e-8 : ℝ) := by norm_num
    have habs : |f ((((low + high) / 2 : ℚ) : ℝ))| =
        ((|g ((low + high) / 2)| : ℚ) : ℝ) := by
      rw [hfg]; exact_mod_cast rfl
    have hcond1 : (|f ((((low + high) / 2 : ℚ) : ℝ))| < (1e-8 : ℝ)) ↔
        |g ((low + high) / 2)| < (1e-8 : ℚ) := by
      rw [habs, ← htol]
      exact_mod_cast Iff.rfl
    have hcond2 : ((fl : ℝ) * f ((((low + high) / 2 : ℚ) : ℝ)) ≤ 0) ↔
        fl * g ((low + high) / 2) ≤ 0 := by
      rw [hfg]
      constructor <;> intro hx <;> exact_mod_cast hx
    simp only [bisectIrr, bisectIrrQ, hmid]
    by_cases h1 : |g ((low + high) / 2)| < (1e-8 : ℚ)
    · rw [if_pos (hcond1.mpr h1), if_pos h1]
    · rw [if_neg (fun hx => h1 (hcond1.mp hx)), if_neg h1]
      by_cases h2 : fl * g ((low + high) / 2) ≤ 0
      · rw [if_pos (hcond2.mpr h2), if_pos h2, hfg]
        exact ih low ((low + high) / 2) fl (g ((low + high) / 2))
      · rw [if_neg (fun hx => h2 (hcond2.mp hx)), if_neg h2, hfg]
        exact ih ((low + high) / 2) high (g ((low + high) / 2)) fh

theorem xnpv_example (q : ℚ) :
    xnpv [((0 : ℤ), (-1000 : ℚ)), ((365 : ℤ), 1100)] 0 (q : ℝ) =
      ((gEx q : ℚ) : ℝ) := by
  have h365 : (((365 : ℤ) - 0 : ℤ) : ℝ) / 365 = 1 := by norm_num
  have h0 : (((0 : ℤ) - 0 : ℤ) : ℝ) / 365 = 0 := by norm_num
  simp only [xnpv, List.foldl, h365, h0, Real.rpow_zero, Real.rpow_one, gEx]
  push_cast
  ring

theorem xirr_example_eq :
    xirr [((0 : ℤ), (-1000 : ℚ)), ((365 : ℤ), 1100)] =
      some ((bisectIrrQ gEx 120 (-0.9999) 4 (gEx (-0.9999)) (gEx 4) : ℚ) : ℝ) := by
  have hfg : ∀ q : ℚ,
      (fun rate => xnpv [((0 : ℤ), (-1000 : ℚ)), ((365 : ℤ), 1100)] 0 rate) (q : ℝ) =
        ((gEx q : ℚ) : ℝ) := fun q => xnpv_example q
  have hsort : List.insertionSort (fun a b : ℤ × ℚ => a.1 ≤ b.1)
      [((0 : ℤ), (-1000 : ℚ)), ((365 : ℤ), 1100)] =
      [((0 : ℤ), (-1000 : ℚ)), ((365 : ℤ), 1100)] := by decide
  have hlow : (-0.9999 : ℝ) = ((-0.9999 : ℚ) : ℝ) := by norm_num
  have h4 : (4 : ℝ) = ((4 : ℚ) : ℝ) := by norm_num
  have hflow : xnpv [((0 : ℤ), (-1000 : ℚ)), ((365 : ℤ), 1100)] 0 (-0.9999 : ℝ) =
      ((gEx (-0.9999) : ℚ) : ℝ) := by rw [hlow]; exact hfg _
  have hf4 : xnpv [((0 : ℤ), (-1000 : ℚ)), ((365 : ℤ), 1100)] 0 (4 : ℝ) =
      ((gEx 4 : ℚ) : ℝ) := by rw [h4]; exact hfg _
  have hQexp : expandHighQ gEx (gEx (-0.9999)) 16 4 (gEx 4) = (4, gEx 4) := by
    decide
  have hexp : expandHigh
      (fun rate => xnpv [((0 : ℤ), (-1000 : ℚ)), ((365 : ℤ), 1100)] 0 rate)
      (xnpv [((0 : ℤ), (-1000 : ℚ)), ((365 : ℤ), 1100)] 0 (-0.9999)) 16 4
      (xnpv [((0 : ℤ), (-1000 : ℚ)), ((365 : ℤ), 1100)] 0 4) =
      (((4 : ℚ) : ℝ), ((gEx 4 : ℚ) : ℝ)) := by
    rw [hflow, hf4, h4]
    rw [expandHigh_cast _ _ hfg (gEx (-0.9999)) 16 4 (gEx 4), hQexp]
  have hneg : ¬ (xnpv [((0 : ℤ), (-1000 : ℚ)), ((365 : ℤ), 1100)] 0 (-0.9999) *
      ((gEx 4 : ℚ) : ℝ) > 0) := by
    rw [hflow, ← Rat.cast_mul]
    intro hx
    have h2 : (0 : ℚ) < gEx (-0.9999) * gEx 4 := by exact_mod_cast hx
    have h3 : gEx (-0.9999) * gEx 4 < 0 := by decide
    linarith
  simp only [xirr, hsort]
  rw [if_neg (by decide)]
  rw [if_neg (by decide)]
  rw [hexp]
  dsimp only
  rw [if_neg hneg]
  rw [hlow]
  rw [show xnpv [((0 : ℤ), (-1000 : ℚ)), ((365 : ℤ), 1100)] 0
      (((-0.9999 : ℚ)) : ℝ) = ((gEx (-0.9999) : ℚ) : ℝ) from xnpv_example _]
  exact congrArg some
    (bisectIrr_cast _ _ hfg 120 (-0.9999) 4 (gEx (-0.9999)) (gEx 4))

/-- C8: `_xirr` returns `None` unless the cashflows contain at least one
positive and at least one negative amount; and for the cashflows −1000 on
day 0 and +1100 on day 365 its bisection (bracketing by doubling, then at
most 120 iterations to a 1e-8 tolerance over `[-0.9999, 4]`) lands within
0.5 percentage points of 10%. -/
theorem C8_xirr :
    (∀ cfs : List (ℤ × ℚ),
      ((cfs.any fun cf => decide (cf.2 > 0)) = false ∨
       (cfs.any fun cf => decide (cf.2 < 0)) = false) →
      xirr cfs = none) ∧
    (∃ r : ℝ, xirr [((0 : ℤ), (-1000 : ℚ)), ((365 : ℤ), 1100)] = some r ∧
      |r - 0.1| ≤ 0.005) := by
  constructor
  · intro cfs h
    simp only [xirr]
    by_cases hlen : cfs.length < 2
    · rw [if_pos hlen]
    · rw [if_neg hlen]
      rcases h with h | h <;> simp [h]
  · refine ⟨((bisectIrrQ gEx 120 (-0.9999) 4 (gEx (-0.9999)) (gEx 4) : ℚ) : ℝ),
      xirr_example_eq, ?_⟩
    have h01 : (0.1 : ℝ) = ((0.1 : ℚ) : ℝ) := by norm_num
    have h005 : (0.005 : ℝ) = ((0.005 : ℚ) : ℝ) := by norm_num
    rw [h01, h005, ← Rat.cast_sub, ← Rat.cast_abs, Rat.cast_le]
    decide

/-- Witness for C8: a single-sign cashflow list yields `None`. -/
theorem C8_xirr_witness : xirr [((0 : ℤ), (5 : ℚ))] = none :=
  C8_xirr.1 [((0 : ℤ), (5 : ℚ))] (Or.inr (by decide))

end Finance


